import Mathlib

/-!
Verification of the sourceweb `clang-indexer` pipeline (`src/clang-indexer/main.cc`)
against its natural-language specification.

The repository snapshot contains only `main.cc`; the `libindexdb` store it links
against (`indexdb::Index`, `indexdb::StringTable`, `indexdb::Table`, `merge`,
`save`) is declared in `../libindexdb/IndexDb.h` but its implementation is not
part of the snapshot, so the store is modelled here from the specification
(spec sections 3, 4.3, 4.4 and 6).  Everything in the `ClangIndexer` namespace
is translated directly from `main.cc`.
-/

set_option maxHeartbeats 1000000

namespace IndexDb

/-- A fixed-width row of unsigned integers (`indexdb::Row`). -/
abbrev Row := List Nat

/-- A resolved column value of the debug export (spec section 6): a raw integer
column stays an integer, a foreign-key column is joined back to its string. -/
inductive Cell where
  | raw (n : Nat)
  | str (s : String)
deriving DecidableEq

/-- Modelled from the spec: `StringTable` of the missing `libindexdb` — a
bijective mapping from distinct strings to dense 0-based integer IDs assigned
in first-insertion order, stored here as the ordered list of interned strings
(the ID of a string is its position). -/
structure StringTable where
  strings : List String
deriving DecidableEq

/-- Position of the first occurrence of `s`, if present. -/
def idxOf : List String → String → Option Nat
  | [], _ => none
  | x :: rest, s => if x = s then some 0 else (idxOf rest s).map (· + 1)

/-- Modelled from the spec: insert-or-get on a `StringTable` — returns the
existing ID if the string is present, else appends it and returns the new
dense ID. -/
def StringTable.insert (t : StringTable) (s : String) : Nat × StringTable :=
  match idxOf t.strings s with
  | some i => (i, t)
  | none => (t.strings.length, ⟨t.strings ++ [s]⟩)

/-- Modelled from the spec: a `Table` — an ordered sequence of fixed-width
rows together with its schema: per column, the name of the `StringTable` it is
a foreign key into, or `""` for a raw integer column. -/
structure Table where
  schema : List String
  rows : List Row
deriving DecidableEq

/-- Modelled from the spec: appending a row to a `Table`. -/
def Table.add (t : Table) (r : Row) : Table :=
  { t with rows := t.rows ++ [r] }

/-- Modelled from the spec: an `Index` — a named collection of `StringTable`s
and `Table`s (kept in registration order) with a mutable / read-only
lifecycle flag. -/
structure Index where
  stringTables : List (String × StringTable)
  tables : List (String × Table)
  readOnly : Bool
deriving DecidableEq

/-- First entry of a name/value list with the given name. -/
def lookupByName {β : Type} : List (String × β) → String → Option β
  | [], _ => none
  | p :: rest, n => if p.1 = n then some p.2 else lookupByName rest n

/-- Modelled from the spec: `new indexdb::Index` creates an index with no
registered tables. -/
def Index.emptyIndex : Index := ⟨[], [], false⟩

/-- Modelled from the spec: register an empty string table under a name. -/
def Index.addStringTable (idx : Index) (n : String) : Index :=
  { idx with stringTables := idx.stringTables ++ [(n, ⟨[]⟩)] }

/-- Modelled from the spec: register an empty table with the given schema. -/
def Index.addTable (idx : Index) (n : String) (schema : List String) : Index :=
  { idx with tables := idx.tables ++ [(n, ⟨schema, []⟩)] }

/-- Modelled from the spec: `setReadOnly` — irreversible transition of the
index to its read-only state. -/
def Index.setReadOnly (idx : Index) : Index :=
  { idx with readOnly := true }

/-- String stored at position `i` of the string table registered under `tbl`
(used by the debug export that joins tables with their string tables). -/
def Index.strAt (idx : Index) (tbl : String) (i : Nat) : String :=
  match lookupByName idx.stringTables tbl with
  | some t => t.strings.getD i ""
  | none => ""

/-- Resolve one row through the index's string tables: raw columns stay
integers, foreign-key columns are joined back to their strings. -/
def Index.resolvedRow (idx : Index) (schema : List String) (r : Row) : List Cell :=
  List.zipWith (fun c v => if c = "" then Cell.raw v else Cell.str (idx.strAt c v)) schema r

/-- The logical content of an index: every row of every table, resolved back
through the string tables, tagged with its table's name (in storage order). -/
def Index.factsList (idx : Index) : List (String × List Cell) :=
  idx.tables.flatMap (fun p => p.2.rows.map (fun r => (p.1, idx.resolvedRow p.2.schema r)))

/-- The logical content of an index as a set of resolved tuples. -/
def Index.factsSet (idx : Index) : Finset (String × List Cell) :=
  idx.factsList.toFinset

/-- Rows currently stored in the table registered under `nm` (empty if no such
table is registered). -/
def Index.tableRows (idx : Index) (nm : String) : List Row :=
  match lookupByName idx.tables nm with
  | some t => t.rows
  | none => []

/-- The schema of an index: its registered string-table names and, per table,
its name and column schema — fixed at construction (spec section 3). -/
def Index.schemaOf (idx : Index) : List String × List (String × List String) :=
  (idx.stringTables.map Prod.fst, idx.tables.map (fun p => (p.1, p.2.schema)))

/-- Modelled from the spec (merge step 1): iterate the source table's strings
in ID order, insert each into the destination table, and record the
translation map `sourceID → destinationID` as a list indexed by source ID. -/
def mergeStrings (dst : StringTable) (src : List String) : StringTable × List Nat :=
  match src with
  | [] => (dst, [])
  | s :: rest =>
    let p := dst.insert s
    let q := mergeStrings p.2 rest
    (q.1, p.1 :: q.2)

/-- Modelled from the spec (merge step 2): translate one source row — each
foreign-key column is rewritten through its column's string-table translation
map, each raw integer column passes through unchanged. -/
def translateRow (maps : String → Option (List Nat)) (schema : List String) (r : Row) : Row :=
  List.zipWith (fun c v =>
    if c = "" then v
    else match maps c with
      | some m => m.getD v 0
      | none => v) schema r

/-- The translation maps of a merge, per string-table name present in both
indexes (recomputed from the same pure `mergeStrings` run as the merge). -/
def Index.mergeMaps (dst src : Index) : String → Option (List Nat) := fun nm =>
  match lookupByName dst.stringTables nm, lookupByName src.stringTables nm with
  | some d, some s => some (mergeStrings d s.strings).2
  | _, _ => none

/-- Modelled from the spec (section 4.4): fold a source index into a
destination index.  For every string table name present in both, source
strings are inserted in ID order recording translation maps; for every table
name present in both, source rows are translated through the maps and
appended, in original order, to the destination table. -/
def Index.merge (dst src : Index) : Index :=
  { stringTables := dst.stringTables.map (fun p =>
      match lookupByName src.stringTables p.1 with
      | some s => (p.1, (mergeStrings p.2 s.strings).1)
      | none => p),
    tables := dst.tables.map (fun p =>
      match lookupByName src.tables p.1 with
      | some s => (p.1, ⟨p.2.schema,
          p.2.rows ++ s.rows.map (translateRow (Index.mergeMaps dst src) p.2.schema)⟩)
      | none => p),
    readOnly := dst.readOnly }

end IndexDb

namespace ClangIndexer

open IndexDb

/-- A node of the frontend's AST as seen through the boundary accessors used
by `TUIndexer::visitor`: its own USR (`clang_getCursorUSR(cursor)`), the USR
of the referenced declaration when `clang_getCursorReferenced` is non-null,
the kind spelling, and the instantiation location; `nullToBlank` is already
applied, so the string accessors yield `""` rather than null. -/
structure CursorNode where
  usr : String
  refUsr : Option String
  kind : String
  file : String
  line : Nat
  col : Nat
  children : List CursorNode

/-- The identifier the visitor uses for a node (main.cc lines 42-47): the
referenced declaration's USR when the node references one, else the node's
own USR. -/
def resolvedUsr (n : CursorNode) : String :=
  match n.refUsr with
  | some u => u
  | none => n.usr

/-- The mutable state of `TUIndexer`: the five structures of the per-file
index that the indexer holds pointers to (`pathStringTable`,
`kindStringTable`, `usrStringTable`, `refTable`, `locTable`). -/
structure TUState where
  pathT : StringTable
  kindT : StringTable
  usrT : StringTable
  refRows : List Row
  locRows : List Row
deriving DecidableEq

/-- One call of `TUIndexer::visitor` on a cursor, without the recursion
(main.cc lines 38-95): if the resolved USR is non-empty, intern the USR, file
name and kind spelling and append the reference row
`(usrID, fileID, line, column, kindID)` and the location row
`(fileID, line, column, usrID)`. -/
def visitNode (st : TUState) (n : CursorNode) : TUState :=
  let usr := resolvedUsr n
  if usr = "" then st
  else
    let pu := st.usrT.insert usr
    let pf := st.pathT.insert n.file
    let pk := st.kindT.insert n.kind
    { pathT := pf.2, kindT := pk.2, usrT := pu.2,
      refRows := st.refRows ++ [[pu.1, pf.1, n.line, n.col, pk.1]],
      locRows := st.locRows ++ [[pf.1, n.line, n.col, pu.1]] }

/-- `clang_visitChildren` with a visitor returning `CXChildVisit_Recurse`:
depth-first pre-order traversal of a forest of cursors, threading the
indexer state; the translation-unit cursor itself is not visited. -/
def visitForest (st : TUState) : List CursorNode → TUState
  | [] => st
  | n :: rest => visitForest (visitForest (visitNode st n) n.children) rest
termination_by ns => sizeOf ns
decreasing_by
  · have h : sizeOf n.children < sizeOf n := by
      cases n
      simp
      try omega
    simp
    try omega
  · simp
    try omega

/-- The depth-first pre-order listing of a forest of cursors. -/
def preorderF : List CursorNode → List CursorNode
  | [] => []
  | n :: rest => n :: (preorderF n.children ++ preorderF rest)
termination_by ns => sizeOf ns
decreasing_by
  · have h : sizeOf n.children < sizeOf n := by
      cases n
      simp
      try omega
    simp
    try omega
  · simp
    try omega

/-- Number of nodes of a forest whose resolved identifier is non-empty. -/
def countNonEmptyF : List CursorNode → Nat
  | [] => 0
  | n :: rest =>
    (if resolvedUsr n = "" then 0 else 1) + countNonEmptyF n.children + countNonEmptyF rest
termination_by ns => sizeOf ns
decreasing_by
  · have h : sizeOf n.children < sizeOf n := by
      cases n
      simp
      try omega
    simp
    try omega
  · simp
    try omega

/-- Column schema of the `ref` table (main.cc lines 120-126): `usr`, `path`,
raw line, raw column, `kind`. -/
def refColumns : List String := ["usr", "path", "", "", "kind"]

/-- Column schema of the `loc` table (main.cc lines 128-133): `path`, raw
line, raw column, `usr`. -/
def locColumns : List String := ["path", "", "", "usr"]

/-- `newIndex` (main.cc lines 112-136): a fresh index with string tables
`path`, `kind`, `usr` and tables `ref` and `loc` registered. -/
def newIndex : Index :=
  ((((Index.emptyIndex.addStringTable "path").addStringTable
      "kind").addStringTable "usr").addTable "ref" refColumns).addTable "loc" locColumns

/-- The indexer state at the start of a traversal: pointers into the empty
tables of a fresh `newIndex`. -/
def initTU : TUState := ⟨⟨[]⟩, ⟨[]⟩, ⟨[]⟩, [], []⟩

/-- Reassemble the per-file index from the indexer state (the five structures
the `TUIndexer` pointers point into). -/
def TUState.toIndex (st : TUState) : Index :=
  ⟨[("path", st.pathT), ("kind", st.kindT), ("usr", st.usrT)],
   [("ref", ⟨refColumns, st.refRows⟩), ("loc", ⟨locColumns, st.locRows⟩)],
   false⟩

/-- One record of the build descriptor (`SourceFileInfo`, main.cc 105-110). -/
structure SourceFileInfo where
  path : String
  defines : List String
  includes : List String
  extraArgs : List String
deriving DecidableEq

/-- The external frontend: `clang_parseTranslationUnit` on a record's path and
flags yields the children of the translation-unit cursor, or `none` when the
translation unit fails to parse (null `CXTranslationUnit`). -/
abbrev Frontend := SourceFileInfo → Option (List CursorNode)

/-- `indexSourceFile` (main.cc lines 138-195): on parse failure return a
fresh `newIndex` (empty, not an error); on success build a fresh `newIndex`,
traverse the translation unit with the visitor, and set the per-file index
read-only. -/
def indexSourceFile (frontend : Frontend) (sfi : SourceFileInfo) : Index :=
  match frontend sfi with
  | none => newIndex
  | some forest => (visitForest initTU forest).toIndex.setReadOnly

/-- The records enumerated from the root JSON value: `Json::Reader::parse`'s
return value is ignored by `readSourcesJson` (main.cc line 236), and a failed
parse leaves the root a null `Json::Value`, over which iteration yields no
elements. -/
def recordsOf : Option (List SourceFileInfo) → List SourceFileInfo
  | none => []
  | some rs => rs

/-- `readSourcesJson(json, index)` (main.cc lines 206-229): dispatch one
`indexSourceFile` task per record in descriptor order, then, for `i`
ascending, await task `i`'s per-file index, merge it into `index`, and
discard it. -/
def readSourcesJson (frontend : Frontend) (records : List SourceFileInfo)
    (index : Index) : Index :=
  (records.map (fun r => indexSourceFile frontend r)).foldl Index.merge index

/-- `readSourcesJson(filename, index)` (main.cc lines 231-238): parse the
descriptor file (result ignored) and process the root value. -/
def readSourcesJsonFromFile (frontend : Frontend)
    (parsed : Option (List SourceFileInfo)) (index : Index) : Index :=
  readSourcesJson frontend (recordsOf parsed) index

/-- Observable outcome of a run of the process. -/
structure RunResult where
  exitCode : Nat
  savedIndex : Option Index
deriving DecidableEq

/-- `main` (main.cc lines 240-247): create the global index with the bare
`indexdb::Index` constructor, process the descriptor, set the global index
read-only, save it, and return 0. -/
def mainRun (frontend : Frontend) (parsed : Option (List SourceFileInfo)) : RunResult :=
  let index := Index.emptyIndex
  let index := readSourcesJsonFromFile frontend parsed index
  let index := index.setReadOnly
  { exitCode := 0, savedIndex := some index }

/-! ### Scheduling model for the collection loop

`readSourcesJson` submits one task per record to `QtConcurrent::run` and then
awaits `fileIndices[i].result()` for `i` ascending, merging each result into
the destination and deleting it.  Workers may finish in any order; the
collection loop can only consume the result of task `i` once that task has
completed, and consumes results in submission order.  `outputs` gives each
task's per-file index (a pure function of its record). -/

/-- State of the orchestrator: which tasks have completed (in completion
order), how many results have been consumed, the destination index, and the
order in which per-file indexes have been merged. -/
structure SchedState where
  completed : List Nat
  collected : Nat
  dest : IndexDb.Index
  mergedSeq : List Nat
deriving DecidableEq

/-- One scheduling step: either some worker finishes a not-yet-finished task
`j` (in any order), or the collection loop — blocked until task `collected`
has completed — consumes that task's result, merges it into the destination
and discards it. -/
inductive SchedStep (outputs : Nat → IndexDb.Index) (n : Nat) :
    SchedState → SchedState → Prop where
  | complete (s : SchedState) (j : Nat) (hj : j < n) (hnew : j ∉ s.completed) :
      SchedStep outputs n s ⟨s.completed ++ [j], s.collected, s.dest, s.mergedSeq⟩
  | collect (s : SchedState) (hdone : s.collected ∈ s.completed) (hlt : s.collected < n) :
      SchedStep outputs n s
        ⟨s.completed, s.collected + 1, s.dest.merge (outputs s.collected),
         s.mergedSeq ++ [s.collected]⟩

/-- Initial orchestrator state: nothing completed, nothing collected. -/
def initSched (dest0 : IndexDb.Index) : SchedState := ⟨[], 0, dest0, []⟩

/-- The reordering that takes a `ref` row `(usr, file, line, col, kind)` to
its paired `loc` row `(file, line, col, usr)`. -/
def locOfRef (r : Row) : Row := [r.getD 1 0, r.getD 2 0, r.getD 3 0, r.getD 0 0]

/-- The variable contents of an index carrying the `newIndex` schema. -/
structure StdParts where
  pathT : StringTable
  kindT : StringTable
  usrT : StringTable
  refRows : List Row
  locRows : List Row
  ro : Bool
deriving DecidableEq

/-- The index with the `newIndex` schema and the given contents. -/
def stdIndex (p : StdParts) : Index :=
  ⟨[("path", p.pathT), ("kind", p.kindT), ("usr", p.usrT)],
   [("ref", ⟨refColumns, p.refRows⟩), ("loc", ⟨locColumns, p.locRows⟩)],
   p.ro⟩

/-- A well-formed `ref` row: width 5 and every foreign key in range of its
string table. -/
def refRowOK (p : StdParts) (r : Row) : Prop :=
  r.length = 5 ∧ r.getD 0 0 < p.usrT.strings.length ∧
    r.getD 1 0 < p.pathT.strings.length ∧ r.getD 4 0 < p.kindT.strings.length

/-- A well-formed `loc` row: width 4 and every foreign key in range of its
string table. -/
def locRowOK (p : StdParts) (r : Row) : Prop :=
  r.length = 4 ∧ r.getD 0 0 < p.pathT.strings.length ∧
    r.getD 3 0 < p.usrT.strings.length

/-- Well-formedness of a schema-registered index: every stored row has its
schema's width and in-range foreign keys. -/
def StdOK (p : StdParts) : Prop :=
  (∀ r ∈ p.refRows, refRowOK p r) ∧ (∀ r ∈ p.locRows, locRowOK p r)

instance (p : StdParts) (r : Row) : Decidable (refRowOK p r) := by
  unfold refRowOK; infer_instance

instance (p : StdParts) (r : Row) : Decidable (locRowOK p r) := by
  unfold locRowOK; infer_instance

instance (p : StdParts) : Decidable (StdOK p) := by
  unfold StdOK; infer_instance

/-- An index that carries the `newIndex` schema and well-formed contents (as
every per-file index produced by extraction does). -/
def IsStdValid (s : Index) : Prop := ∃ p, s = stdIndex p ∧ StdOK p

/-- Contents of the merge of two schema-registered indexes, per the spec's
merge algorithm. -/
def mergedParts (p q : StdParts) : StdParts where
  pathT := (mergeStrings p.pathT q.pathT.strings).1
  kindT := (mergeStrings p.kindT q.kindT.strings).1
  usrT := (mergeStrings p.usrT q.usrT.strings).1
  refRows := p.refRows ++
    q.refRows.map (translateRow (Index.mergeMaps (stdIndex p) (stdIndex q)) refColumns)
  locRows := p.locRows ++
    q.locRows.map (translateRow (Index.mergeMaps (stdIndex p) (stdIndex q)) locColumns)
  ro := p.ro

end ClangIndexer

/-! ### Helper lemmas about the string-table model -/

namespace IndexDb

theorem idxOf_lt_length {l : List String} {s : String} {i : Nat}
    (h : idxOf l s = some i) : i < l.length := by
  induction l generalizing i with
  | nil => simp [idxOf] at h
  | cons x rest ih =>
    by_cases hx : x = s
    · simp [idxOf, hx] at h
      simp
      omega
    · simp [idxOf, hx] at h
      obtain ⟨j, hj, rfl⟩ := h
      have := ih hj
      simp
      omega

theorem idxOf_getD {l : List String} {s : String} {i : Nat}
    (h : idxOf l s = some i) : l.getD i "" = s := by
  induction l generalizing i with
  | nil => simp [idxOf] at h
  | cons x rest ih =>
    by_cases hx : x = s
    · simp [idxOf, hx] at h
      subst h
      simpa using hx
    · simp [idxOf, hx] at h
      obtain ⟨j, hj, rfl⟩ := h
      simpa using ih hj

theorem insert_strings_eq_append (t : StringTable) (s : String) :
    ∃ u, (t.insert s).2.strings = t.strings ++ u := by
  unfold StringTable.insert
  cases h : idxOf t.strings s with
  | some i => exact ⟨[], by simp⟩
  | none => exact ⟨[s], rfl⟩

theorem insert_fst_lt (t : StringTable) (s : String) :
    (t.insert s).1 < (t.insert s).2.strings.length := by
  unfold StringTable.insert
  cases h : idxOf t.strings s with
  | some i => simpa using idxOf_lt_length h
  | none => simp

theorem insert_getD (t : StringTable) (s : String) :
    (t.insert s).2.strings.getD (t.insert s).1 "" = s := by
  unfold StringTable.insert
  cases h : idxOf t.strings s with
  | some i => simpa using idxOf_getD h
  | none => simp

theorem mergeStrings_strings_eq_append (dst : StringTable) (src : List String) :
    ∃ u, (mergeStrings dst src).1.strings = dst.strings ++ u := by
  induction src generalizing dst with
  | nil => exact ⟨[], by simp [mergeStrings]⟩
  | cons s rest ih =>
    obtain ⟨u1, hu1⟩ := insert_strings_eq_append dst s
    obtain ⟨u2, hu2⟩ := ih (dst.insert s).2
    exact ⟨u1 ++ u2, by simp [mergeStrings, hu2, hu1]⟩

theorem mergeStrings_length_le (dst : StringTable) (src : List String) :
    dst.strings.length ≤ (mergeStrings dst src).1.strings.length := by
  obtain ⟨u, hu⟩ := mergeStrings_strings_eq_append dst src
  simp [hu]

theorem mergeStrings_map_length (dst : StringTable) (src : List String) :
    (mergeStrings dst src).2.length = src.length := by
  induction src generalizing dst with
  | nil => simp [mergeStrings]
  | cons s rest ih => simp [mergeStrings, ih]

/-- Correctness of the translation map recorded by merge step 1: for every
in-range source ID `j`, the mapped ID is in range of the merged table and
resolves there to the same string the source ID denotes. -/
theorem mergeStrings_map_ok (dst : StringTable) (src : List String) (j : Nat)
    (hj : j < src.length) :
    (mergeStrings dst src).2.getD j 0 < (mergeStrings dst src).1.strings.length ∧
      (mergeStrings dst src).1.strings.getD ((mergeStrings dst src).2.getD j 0) "" =
        src.getD j "" := by
  induction src generalizing dst j with
  | nil => simp at hj
  | cons s rest ih =>
    cases j with
    | zero =>
      have hlt := insert_fst_lt dst s
      have hget := insert_getD dst s
      obtain ⟨u, hu⟩ := mergeStrings_strings_eq_append (dst.insert s).2 rest
      constructor
      · simp only [mergeStrings]
        simp [hu]
        omega
      · simp only [mergeStrings]
        simp [hu, ← List.getD_eq_getElem?_getD]
        rw [List.getD_append _ _ _ _ hlt]
        exact hget
    | succ j =>
      have hj' : j < rest.length := by simpa using hj
      have := ih (dst.insert s).2 j hj'
      simpa [mergeStrings] using this

end IndexDb

/-! ### The canonical shape of a schema-registered index

Every index the program registers tables on has the `newIndex` schema: string
tables `path`, `kind`, `usr` and tables `ref`, `loc`.  `StdParts` names the
five variable parts of such an index. -/

namespace ClangIndexer

open IndexDb


theorem merge_stdIndex (p q : StdParts) :
    (stdIndex p).merge (stdIndex q) = stdIndex (mergedParts p q) := by
  rfl

theorem newIndex_eq_stdIndex :
    newIndex = stdIndex ⟨⟨[]⟩, ⟨[]⟩, ⟨[]⟩, [], [], false⟩ := by
  rfl

theorem mergeMaps_usr (p q : StdParts) :
    Index.mergeMaps (stdIndex p) (stdIndex q) "usr" =
      some (mergeStrings p.usrT q.usrT.strings).2 := by
  rfl

theorem mergeMaps_path (p q : StdParts) :
    Index.mergeMaps (stdIndex p) (stdIndex q) "path" =
      some (mergeStrings p.pathT q.pathT.strings).2 := by
  rfl

theorem mergeMaps_kind (p q : StdParts) :
    Index.mergeMaps (stdIndex p) (stdIndex q) "kind" =
      some (mergeStrings p.kindT q.kindT.strings).2 := by
  rfl

theorem exists_five_of_length {α : Type} {r : List α} (h : r.length = 5) :
    ∃ a b c d e, r = [a, b, c, d, e] := by
  match r with
  | [a, b, c, d, e] => exact ⟨a, b, c, d, e, rfl⟩
  | [] | [_] | [_, _] | [_, _, _] | [_, _, _, _] => simp at h
  | _ :: _ :: _ :: _ :: _ :: _ :: _ =>
    simp at h
    try omega

theorem exists_four_of_length {α : Type} {r : List α} (h : r.length = 4) :
    ∃ a b c d, r = [a, b, c, d] := by
  match r with
  | [a, b, c, d] => exact ⟨a, b, c, d, rfl⟩
  | [] | [_] | [_, _] | [_, _, _] => simp at h
  | _ :: _ :: _ :: _ :: _ :: _ =>
    simp at h
    try omega

theorem resolvedRow_std_ref (p : StdParts) (a b c d e : Nat) :
    (stdIndex p).resolvedRow refColumns [a, b, c, d, e] =
      [Cell.str (p.usrT.strings.getD a ""), Cell.str (p.pathT.strings.getD b ""),
       Cell.raw c, Cell.raw d, Cell.str (p.kindT.strings.getD e "")] := by
  rfl

theorem resolvedRow_std_loc (p : StdParts) (a b c d : Nat) :
    (stdIndex p).resolvedRow locColumns [a, b, c, d] =
      [Cell.str (p.pathT.strings.getD a ""), Cell.raw b, Cell.raw c,
       Cell.str (p.usrT.strings.getD d "")] := by
  rfl

theorem translateRow_std_ref (p q : StdParts) (a b c d e : Nat) :
    translateRow (Index.mergeMaps (stdIndex p) (stdIndex q)) refColumns [a, b, c, d, e] =
      [(mergeStrings p.usrT q.usrT.strings).2.getD a 0,
       (mergeStrings p.pathT q.pathT.strings).2.getD b 0, c, d,
       (mergeStrings p.kindT q.kindT.strings).2.getD e 0] := by
  rfl

theorem translateRow_std_loc (p q : StdParts) (a b c d : Nat) :
    translateRow (Index.mergeMaps (stdIndex p) (stdIndex q)) locColumns [a, b, c, d] =
      [(mergeStrings p.pathT q.pathT.strings).2.getD a 0, b, c,
       (mergeStrings p.usrT q.usrT.strings).2.getD d 0] := by
  rfl

/-- Destination rows keep their resolved content after a merge: the merged
string tables extend the destination's, so in-range IDs resolve unchanged. -/
theorem resolvedRow_merged_left_ref (p q : StdParts) {r : Row} (h : refRowOK p r) :
    (stdIndex (mergedParts p q)).resolvedRow refColumns r =
      (stdIndex p).resolvedRow refColumns r := by
  obtain ⟨a, b, c, d, e, rfl⟩ := exists_five_of_length h.1
  simp only [refRowOK, List.getD_cons_zero, List.getD_cons_succ] at h
  obtain ⟨-, ha, hb, he⟩ := h
  obtain ⟨u1, hu1⟩ := mergeStrings_strings_eq_append p.usrT q.usrT.strings
  obtain ⟨u2, hu2⟩ := mergeStrings_strings_eq_append p.pathT q.pathT.strings
  obtain ⟨u3, hu3⟩ := mergeStrings_strings_eq_append p.kindT q.kindT.strings
  rw [resolvedRow_std_ref, resolvedRow_std_ref]
  simp only [mergedParts]
  rw [hu1, hu2, hu3, List.getD_append _ _ _ _ ha, List.getD_append _ _ _ _ hb,
    List.getD_append _ _ _ _ he]

theorem resolvedRow_merged_left_loc (p q : StdParts) {r : Row} (h : locRowOK p r) :
    (stdIndex (mergedParts p q)).resolvedRow locColumns r =
      (stdIndex p).resolvedRow locColumns r := by
  obtain ⟨a, b, c, d, rfl⟩ := exists_four_of_length h.1
  simp only [locRowOK, List.getD_cons_zero, List.getD_cons_succ] at h
  obtain ⟨-, ha, hd⟩ := h
  obtain ⟨u1, hu1⟩ := mergeStrings_strings_eq_append p.usrT q.usrT.strings
  obtain ⟨u2, hu2⟩ := mergeStrings_strings_eq_append p.pathT q.pathT.strings
  rw [resolvedRow_std_loc, resolvedRow_std_loc]
  simp only [mergedParts]
  rw [hu1, hu2, List.getD_append _ _ _ _ ha, List.getD_append _ _ _ _ hd]

/-- Translated source rows resolve in the merged index to the same content
they had in the source index. -/
theorem resolvedRow_merged_right_ref (p q : StdParts) {r : Row} (h : refRowOK q r) :
    (stdIndex (mergedParts p q)).resolvedRow refColumns
        (translateRow (Index.mergeMaps (stdIndex p) (stdIndex q)) refColumns r) =
      (stdIndex q).resolvedRow refColumns r := by
  obtain ⟨a, b, c, d, e, rfl⟩ := exists_five_of_length h.1
  simp only [refRowOK, List.getD_cons_zero, List.getD_cons_succ] at h
  obtain ⟨-, ha, hb, he⟩ := h
  have hU := mergeStrings_map_ok p.usrT q.usrT.strings a ha
  have hP := mergeStrings_map_ok p.pathT q.pathT.strings b hb
  have hK := mergeStrings_map_ok p.kindT q.kindT.strings e he
  rw [translateRow_std_ref, resolvedRow_std_ref, resolvedRow_std_ref]
  simp only [mergedParts]
  rw [hU.2, hP.2, hK.2]

theorem resolvedRow_merged_right_loc (p q : StdParts) {r : Row} (h : locRowOK q r) :
    (stdIndex (mergedParts p q)).resolvedRow locColumns
        (translateRow (Index.mergeMaps (stdIndex p) (stdIndex q)) locColumns r) =
      (stdIndex q).resolvedRow locColumns r := by
  obtain ⟨a, b, c, d, rfl⟩ := exists_four_of_length h.1
  simp only [locRowOK, List.getD_cons_zero, List.getD_cons_succ] at h
  obtain ⟨-, ha, hd⟩ := h
  have hU := mergeStrings_map_ok p.usrT q.usrT.strings d hd
  have hP := mergeStrings_map_ok p.pathT q.pathT.strings a ha
  rw [translateRow_std_loc, resolvedRow_std_loc, resolvedRow_std_loc]
  simp only [mergedParts]
  rw [hP.2, hU.2]

/-- Merging two well-formed schema-registered indexes yields a well-formed
one. -/
theorem StdOK_mergedParts {p q : StdParts} (hp : StdOK p) (hq : StdOK q) :
    StdOK (mergedParts p q) := by
  constructor
  · intro r hr
    simp only [mergedParts, List.mem_append, List.mem_map] at hr
    rcases hr with hr | ⟨r0, hr0, rfl⟩
    · have h := hp.1 r hr
      obtain ⟨a, b, c, d, e, rfl⟩ := exists_five_of_length h.1
      simp only [refRowOK, List.getD_cons_zero, List.getD_cons_succ] at h ⊢
      have h1 := mergeStrings_length_le p.usrT q.usrT.strings
      have h2 := mergeStrings_length_le p.pathT q.pathT.strings
      have h3 := mergeStrings_length_le p.kindT q.kindT.strings
      simp only [mergedParts]
      refine ⟨rfl, ?_, ?_, ?_⟩ <;> omega
    · have h := hq.1 r0 hr0
      obtain ⟨a, b, c, d, e, rfl⟩ := exists_five_of_length h.1
      simp only [refRowOK, List.getD_cons_zero, List.getD_cons_succ] at h
      obtain ⟨-, ha, hb, he⟩ := h
      have hU := (mergeStrings_map_ok p.usrT q.usrT.strings a ha).1
      have hP := (mergeStrings_map_ok p.pathT q.pathT.strings b hb).1
      have hK := (mergeStrings_map_ok p.kindT q.kindT.strings e he).1
      rw [translateRow_std_ref]
      simp only [refRowOK, List.getD_cons_zero, List.getD_cons_succ]
      simp only [mergedParts]
      exact ⟨rfl, hU, hP, hK⟩
  · intro r hr
    simp only [mergedParts, List.mem_append, List.mem_map] at hr
    rcases hr with hr | ⟨r0, hr0, rfl⟩
    · have h := hp.2 r hr
      obtain ⟨a, b, c, d, rfl⟩ := exists_four_of_length h.1
      simp only [locRowOK, List.getD_cons_zero, List.getD_cons_succ] at h ⊢
      have h1 := mergeStrings_length_le p.usrT q.usrT.strings
      have h2 := mergeStrings_length_le p.pathT q.pathT.strings
      simp only [mergedParts]
      refine ⟨rfl, ?_, ?_⟩ <;> omega
    · have h := hq.2 r0 hr0
      obtain ⟨a, b, c, d, rfl⟩ := exists_four_of_length h.1
      simp only [locRowOK, List.getD_cons_zero, List.getD_cons_succ] at h
      obtain ⟨-, ha, hd⟩ := h
      have hU := (mergeStrings_map_ok p.usrT q.usrT.strings d hd).1
      have hP := (mergeStrings_map_ok p.pathT q.pathT.strings a ha).1
      rw [translateRow_std_loc]
      simp only [locRowOK, List.getD_cons_zero, List.getD_cons_succ]
      simp only [mergedParts]
      exact ⟨rfl, hP, hU⟩

theorem factsList_std (p : StdParts) :
    (stdIndex p).factsList =
      p.refRows.map (fun r => ("ref", (stdIndex p).resolvedRow refColumns r)) ++
        p.locRows.map (fun r => ("loc", (stdIndex p).resolvedRow locColumns r)) := by
  simp [Index.factsList, stdIndex]

theorem perm_cross {α : Type} (A B C D : List α) :
    ((A ++ B) ++ (C ++ D)).Perm ((A ++ C) ++ (B ++ D)) := by
  have h1 : (B ++ (C ++ D)).Perm (C ++ (B ++ D)) := by
    rw [← List.append_assoc, ← List.append_assoc]
    exact List.perm_append_comm.append_right D
  rw [List.append_assoc, List.append_assoc]
  exact List.Perm.append_left A h1

/-- The logical content of a merge of two well-formed schema-registered
indexes is, up to order, the concatenation of the two logical contents. -/
theorem factsList_merge_perm (p q : StdParts) (hp : StdOK p) (hq : StdOK q) :
    ((stdIndex p).merge (stdIndex q)).factsList.Perm
      ((stdIndex p).factsList ++ (stdIndex q).factsList) := by
  rw [merge_stdIndex, factsList_std, factsList_std, factsList_std]
  have hrows : (mergedParts p q).refRows =
      p.refRows ++ q.refRows.map
        (translateRow (Index.mergeMaps (stdIndex p) (stdIndex q)) refColumns) := rfl
  have lrows : (mergedParts p q).locRows =
      p.locRows ++ q.locRows.map
        (translateRow (Index.mergeMaps (stdIndex p) (stdIndex q)) locColumns) := rfl
  rw [hrows, lrows, List.map_append, List.map_append, List.map_map, List.map_map]
  have href : q.refRows.map ((fun r => ("ref", (stdIndex (mergedParts p q)).resolvedRow refColumns r)) ∘
        translateRow (Index.mergeMaps (stdIndex p) (stdIndex q)) refColumns) =
      q.refRows.map (fun r => ("ref", (stdIndex q).resolvedRow refColumns r)) := by
    apply List.map_congr_left
    intro r hr
    simp only [Function.comp_apply]
    rw [resolvedRow_merged_right_ref p q (hq.1 r hr)]
  have href2 : p.refRows.map (fun r => ("ref", (stdIndex (mergedParts p q)).resolvedRow refColumns r)) =
      p.refRows.map (fun r => ("ref", (stdIndex p).resolvedRow refColumns r)) := by
    apply List.map_congr_left
    intro r hr
    rw [resolvedRow_merged_left_ref p q (hp.1 r hr)]
  have hloc : q.locRows.map ((fun r => ("loc", (stdIndex (mergedParts p q)).resolvedRow locColumns r)) ∘
        translateRow (Index.mergeMaps (stdIndex p) (stdIndex q)) locColumns) =
      q.locRows.map (fun r => ("loc", (stdIndex q).resolvedRow locColumns r)) := by
    apply List.map_congr_left
    intro r hr
    simp only [Function.comp_apply]
    rw [resolvedRow_merged_right_loc p q (hq.2 r hr)]
  have hloc2 : p.locRows.map (fun r => ("loc", (stdIndex (mergedParts p q)).resolvedRow locColumns r)) =
      p.locRows.map (fun r => ("loc", (stdIndex p).resolvedRow locColumns r)) := by
    apply List.map_congr_left
    intro r hr
    rw [resolvedRow_merged_left_loc p q (hp.2 r hr)]
  rw [href, href2, hloc, hloc2]
  exact perm_cross _ _ _ _

end ClangIndexer

namespace ClangIndexer

open IndexDb

/-- Folding a sequence of well-formed schema-registered source indexes into a
well-formed schema-registered destination yields, up to order, the
concatenation of all their logical contents. -/
theorem factsList_foldl_perm (srcs : List Index) (h : ∀ s ∈ srcs, IsStdValid s)
    (p : StdParts) (hp : StdOK p) :
    ((srcs.foldl Index.merge (stdIndex p)).factsList).Perm
      ((stdIndex p).factsList ++ (srcs.map Index.factsList).flatten) := by
  induction srcs generalizing p with
  | nil => simp
  | cons s rest ih =>
    obtain ⟨q, rfl, hq⟩ := h s (List.mem_cons_self s rest)
    have hrest : ∀ x ∈ rest, IsStdValid x := fun x hx => h x (List.mem_cons_of_mem _ hx)
    simp only [List.foldl_cons]
    rw [merge_stdIndex]
    have hmain := ih hrest (mergedParts p q) (StdOK_mergedParts hp hq)
    refine hmain.trans ?_
    have hpq : (stdIndex (mergedParts p q)).factsList.Perm
        ((stdIndex p).factsList ++ (stdIndex q).factsList) := by
      rw [← merge_stdIndex]
      exact factsList_merge_perm p q hp hq
    refine (hpq.append_right _).trans ?_
    simp [List.append_assoc]

/-- Folding the union of a permuted list of finsets yields the same finset. -/
theorem foldr_union_perm {α : Type} [DecidableEq α] {l₁ l₂ : List (Finset α)}
    (h : l₁.Perm l₂) (init : Finset α) :
    l₁.foldr (fun a b => a ∪ b) init = l₂.foldr (fun a b => a ∪ b) init := by
  induction h with
  | nil => rfl
  | cons x h ih => simp [ih]
  | swap x y l => simp [Finset.union_left_comm]
  | trans h1 h2 ih1 ih2 => rw [ih1, ih2]

theorem toFinset_flatten_map (srcs : List Index) :
    ((srcs.map Index.factsList).flatten).toFinset =
      (srcs.map Index.factsSet).foldr (fun a b => a ∪ b) ∅ := by
  induction srcs with
  | nil => rfl
  | cons s rest ih => simp [List.toFinset_append, ih, Index.factsSet]

end ClangIndexer

namespace ClangIndexer

open IndexDb

theorem visitNode_ref_length (st : TUState) (n : CursorNode) :
    (visitNode st n).refRows.length =
      st.refRows.length + (if resolvedUsr n = "" then 0 else 1) := by
  simp only [visitNode]
  split <;> simp

theorem visitNode_loc_length (st : TUState) (n : CursorNode) :
    (visitNode st n).locRows.length =
      st.locRows.length + (if resolvedUsr n = "" then 0 else 1) := by
  simp only [visitNode]
  split <;> simp

theorem visitForest_ref_length (st : TUState) (ns : List CursorNode) :
    (visitForest st ns).refRows.length = st.refRows.length + countNonEmptyF ns := by
  induction st, ns using visitForest.induct with
  | case1 st => simp [visitForest, countNonEmptyF]
  | case2 st n rest ih1 ih2 =>
    rw [visitForest, ih2, ih1, visitNode_ref_length, countNonEmptyF]
    omega

theorem visitForest_loc_length (st : TUState) (ns : List CursorNode) :
    (visitForest st ns).locRows.length = st.locRows.length + countNonEmptyF ns := by
  induction st, ns using visitForest.induct with
  | case1 st => simp [visitForest, countNonEmptyF]
  | case2 st n rest ih1 ih2 =>
    rw [visitForest, ih2, ih1, visitNode_loc_length, countNonEmptyF]
    omega

/-- DFS with the recursing visitor equals folding the visitor over the
pre-order node listing: every node is processed, none is pruned. -/
theorem visitForest_eq_foldl (st : TUState) (ns : List CursorNode) :
    visitForest st ns = (preorderF ns).foldl visitNode st := by
  induction st, ns using visitForest.induct with
  | case1 st => simp [visitForest, preorderF]
  | case2 st n rest ih1 ih2 =>
    rw [visitForest, ih2, ih1, preorderF]
    simp [List.foldl_append]

/-- The recursive per-forest count agrees with counting non-empty-identifier
nodes in the pre-order listing. -/
theorem countNonEmptyF_eq_countP (ns : List CursorNode) :
    countNonEmptyF ns = (preorderF ns).countP (fun m => resolvedUsr m ≠ "") := by
  induction ns using countNonEmptyF.induct with
  | case1 => simp [countNonEmptyF, preorderF]
  | case2 n rest ih1 ih2 =>
    rw [countNonEmptyF, preorderF, ih1, ih2]
    rw [List.countP_cons, List.countP_append]
    by_cases hc : resolvedUsr n = ""
    · simp [hc]
    · simp [hc]
      omega


theorem visitNode_loc_eq_map (st : TUState) (n : CursorNode)
    (h : st.locRows = st.refRows.map locOfRef) :
    (visitNode st n).locRows = (visitNode st n).refRows.map locOfRef := by
  simp only [visitNode]
  split
  · exact h
  · simp [h, locOfRef]

theorem visitForest_loc_eq_map (st : TUState) (ns : List CursorNode)
    (h : st.locRows = st.refRows.map locOfRef) :
    (visitForest st ns).locRows = (visitForest st ns).refRows.map locOfRef := by
  induction st, ns using visitForest.induct with
  | case1 st => simpa [visitForest] using h
  | case2 st n rest ih1 ih2 =>
    rw [visitForest]
    exact ih2 (ih1 (visitNode_loc_eq_map st n h))

end ClangIndexer

namespace IndexDb

theorem getElem?_eq_some_of_getD {l : List String} {i : Nat} (h : i < l.length) :
    l[i]? = some (l.getD i "") := by
  rw [List.getElem?_eq_getElem h]
  simp [List.getD_eq_getElem?_getD, List.getElem?_eq_getElem h]

end IndexDb

namespace ClangIndexer

open IndexDb

theorem tableRows_toIndex_ref (st : TUState) :
    (st.toIndex.setReadOnly).tableRows "ref" = st.refRows := by
  rfl

theorem tableRows_toIndex_loc (st : TUState) :
    (st.toIndex.setReadOnly).tableRows "loc" = st.locRows := by
  rfl

/-- C6: under every worker scheduling (any interleaving of task completions),
the collection loop consumes task results strictly in submission order: at
every reachable orchestrator state the per-file indexes merged so far are
exactly tasks `0, …, collected-1` in that order — merge order equals
descriptor order — and the destination is their sequential left fold, each
per-file index being consumed exactly once at its collection step. -/
theorem results_collected_in_submission_order (outputs : Nat → Index) (n : Nat) (dest0 : Index)
    (s : SchedState)
    (h : Relation.ReflTransGen (SchedStep outputs n) (initSched dest0) s) :
    s.mergedSeq = List.range s.collected ∧
      s.dest = (List.range s.collected).foldl (fun d i => d.merge (outputs i)) dest0 := by
  induction h with
  | refl => exact ⟨rfl, rfl⟩
  | tail hR hstep ih =>
    obtain ⟨ih1, ih2⟩ := ih
    cases hstep with
    | complete j hj hnew => exact ⟨ih1, ih2⟩
    | collect hdone hlt =>
      refine ⟨?_, ?_⟩
      · simp [ih1, List.range_succ]
      · simp [ih2, List.range_succ]

end ClangIndexer

namespace ClangIndexer

open IndexDb

/-- C7: extraction traverses the AST depth-first pre-order visiting every node
without pruning any subtree (the visit fold runs over the full pre-order
listing), and for an AST whose pre-order listing has exactly K nodes with a
non-empty resolved identifier, the per-file index receives exactly K rows in
the `ref` table and exactly K rows in the `loc` table. -/
theorem traversal_covers_all_nodes (sfi : SourceFileInfo) (forest : List CursorNode) :
    (∀ st : TUState, visitForest st forest = (preorderF forest).foldl visitNode st) ∧
    ((indexSourceFile (fun _ => some forest) sfi).tableRows "ref").length =
      (preorderF forest).countP (fun m => resolvedUsr m ≠ "") ∧
    ((indexSourceFile (fun _ => some forest) sfi).tableRows "loc").length =
      (preorderF forest).countP (fun m => resolvedUsr m ≠ "") := by
  refine ⟨fun st => visitForest_eq_foldl st forest, ?_, ?_⟩
  · have e : (indexSourceFile (fun _ => some forest) sfi).tableRows "ref" =
        (visitForest initTU forest).refRows := rfl
    rw [e, visitForest_ref_length initTU forest, ← countNonEmptyF_eq_countP]
    simp [initTU]
  · have e : (indexSourceFile (fun _ => some forest) sfi).tableRows "loc" =
        (visitForest initTU forest).locRows := rfl
    rw [e, visitForest_loc_length initTU forest, ← countNonEmptyF_eq_countP]
    simp [initTU]

/-- C8: for a visited node with a non-empty resolved identifier, the `usr`
cell of both emitted rows resolves, in the updated string table, to the
referenced declaration's identifier when the node references another
declaration, and to the node's own identifier otherwise. -/
theorem facts_use_referenced_identifier (st : TUState) (n : CursorNode)
    (h : resolvedUsr n ≠ "") :
    (((visitNode st n).refRows.getLast?).bind
        (fun r => ((visitNode st n).usrT.strings)[r.getD 0 0]?)) =
      some (match n.refUsr with | some u => u | none => n.usr) ∧
    (((visitNode st n).locRows.getLast?).bind
        (fun r => ((visitNode st n).usrT.strings)[r.getD 3 0]?)) =
      some (match n.refUsr with | some u => u | none => n.usr) := by
  have hm : (match n.refUsr with | some u => u | none => n.usr) = resolvedUsr n := rfl
  rw [hm]
  simp only [visitNode, if_neg h]
  constructor
  · rw [List.getLast?_concat]
    simp only [Option.bind, List.getD_cons_zero]
    rw [getElem?_eq_some_of_getD (insert_fst_lt _ _), insert_getD]
  · rw [List.getLast?_concat]
    simp only [Option.bind, List.getD_cons_succ, List.getD_cons_zero]
    rw [getElem?_eq_some_of_getD (insert_fst_lt _ _), insert_getD]

end ClangIndexer

namespace ClangIndexer

open IndexDb

/-- C8 witness: a use-site node referencing declaration `f` emits facts keyed
to `f`, not to its own USR; a node referencing nothing emits facts keyed to
its own USR. -/
theorem facts_use_referenced_identifier_witness :
    ((((visitNode initTU ⟨"own", some "f", "CallExpr", "a.c", 2, 5, []⟩).refRows.getLast?).bind
        (fun r =>
          ((visitNode initTU ⟨"own", some "f", "CallExpr", "a.c", 2, 5, []⟩).usrT.strings)[r.getD 0 0]?)) =
      some "f") ∧
    ((((visitNode initTU ⟨"g", none, "FunctionDecl", "a.c", 1, 1, []⟩).locRows.getLast?).bind
        (fun r =>
          ((visitNode initTU ⟨"g", none, "FunctionDecl", "a.c", 1, 1, []⟩).usrT.strings)[r.getD 3 0]?)) =
      some "g") :=
  ⟨(facts_use_referenced_identifier initTU ⟨"own", some "f", "CallExpr", "a.c", 2, 5, []⟩
      (by decide)).1,
   (facts_use_referenced_identifier initTU ⟨"g", none, "FunctionDecl", "a.c", 1, 1, []⟩
      (by decide)).2⟩

/-- C9: a visited node with non-empty resolved identifier emits exactly two
rows: a `ref` row `(usrID, fileID, line, column, kindID)` and a `loc` row
`(fileID, line, column, usrID)`, where the identifier, file and kind are
interned in the `usr`, `path` and `kind` string tables and line and column
are stored raw. -/
theorem visitor_emits_exactly_two_facts (st : TUState) (n : CursorNode)
    (h : resolvedUsr n ≠ "") :
    (visitNode st n).refRows = st.refRows ++
      [[(st.usrT.insert (resolvedUsr n)).1, (st.pathT.insert n.file).1, n.line, n.col,
        (st.kindT.insert n.kind).1]] ∧
    (visitNode st n).locRows = st.locRows ++
      [[(st.pathT.insert n.file).1, n.line, n.col, (st.usrT.insert (resolvedUsr n)).1]] ∧
    ((visitNode st n).usrT.strings)[(st.usrT.insert (resolvedUsr n)).1]? =
      some (resolvedUsr n) ∧
    ((visitNode st n).pathT.strings)[(st.pathT.insert n.file).1]? = some n.file ∧
    ((visitNode st n).kindT.strings)[(st.kindT.insert n.kind).1]? = some n.kind := by
  simp only [visitNode, if_neg h]
  refine ⟨trivial, trivial, ?_, ?_, ?_⟩ <;>
    rw [getElem?_eq_some_of_getD (insert_fst_lt _ _), insert_getD]

/-- C9 witness: the two facts emitted for a concrete declaration node. -/
theorem visitor_emits_exactly_two_facts_witness :
    (visitNode initTU ⟨"f", none, "FunctionDecl", "a.c", 3, 4, []⟩).refRows =
      [[0, 0, 3, 4, 0]] ∧
    (visitNode initTU ⟨"f", none, "FunctionDecl", "a.c", 3, 4, []⟩).locRows =
      [[0, 3, 4, 0]] ∧
    ((visitNode initTU ⟨"f", none, "FunctionDecl", "a.c", 3, 4, []⟩).usrT.strings)[0]? =
      some "f" ∧
    ((visitNode initTU ⟨"f", none, "FunctionDecl", "a.c", 3, 4, []⟩).pathT.strings)[0]? =
      some "a.c" ∧
    ((visitNode initTU ⟨"f", none, "FunctionDecl", "a.c", 3, 4, []⟩).kindT.strings)[0]? =
      some "FunctionDecl" :=
  visitor_emits_exactly_two_facts initTU ⟨"f", none, "FunctionDecl", "a.c", 3, 4, []⟩
    (by decide)

/-- C10: in every per-file index produced by extraction, the `ref` and `loc`
tables have equal row counts and the i-th `loc` row is exactly the i-th `ref`
row's `(file, line, column, usr)` cells — same interned usr ID, same interned
file ID, same line and column. -/
theorem ref_loc_tables_aligned (frontend : Frontend) (sfi : SourceFileInfo) :
    ((indexSourceFile frontend sfi).tableRows "loc").length =
      ((indexSourceFile frontend sfi).tableRows "ref").length ∧
    ∀ i : Nat, ((indexSourceFile frontend sfi).tableRows "loc")[i]? =
      (((indexSourceFile frontend sfi).tableRows "ref")[i]?).map locOfRef := by
  have key : (indexSourceFile frontend sfi).tableRows "loc" =
      ((indexSourceFile frontend sfi).tableRows "ref").map locOfRef := by
    cases h : frontend sfi with
    | none =>
      simp only [indexSourceFile, h]
      rfl
    | some forest =>
      simp only [indexSourceFile, h]
      rw [tableRows_toIndex_ref, tableRows_toIndex_loc]
      exact visitForest_loc_eq_map initTU forest rfl
  refine ⟨?_, ?_⟩
  · rw [key, List.length_map]
  · intro i
    rw [key, List.getElem?_map]

end ClangIndexer

namespace ClangIndexer

open IndexDb

/-- Merging anything into the bare, schema-less index leaves it bare: the
modelled merge folds only tables present in both indexes, and the bare index
has none. -/
theorem foldl_merge_emptyIndex (l : List Index) :
    l.foldl Index.merge Index.emptyIndex = Index.emptyIndex := by
  induction l with
  | nil => rfl
  | cons x xs ih =>
    simp only [List.foldl_cons]
    exact ih

/-- C1: for every descriptor and frontend outcome — in particular when every
listed file fails to parse — `main` persists a read-only index that contains
no registered string tables and no tables at all: the global index is
constructed with the bare `indexdb::Index` constructor (main.cc line 242)
instead of `newIndex()`, and the spec's merge folds only tables present in
both indexes, so the schema-correct content exists only in the discarded
per-file indexes (`indexSourceFile` does return the registered-schema
`newIndex` on parse failure). -/
theorem main_persists_schemaless_index (frontend : Frontend)
    (parsed : Option (List SourceFileInfo)) :
    (mainRun frontend parsed).exitCode = 0 ∧
    (mainRun frontend parsed).savedIndex = some (⟨[], [], true⟩ : IndexDb.Index) ∧
    indexSourceFile (fun _ => none) ⟨"a.c", [], [], []⟩ = newIndex := by
  refine ⟨rfl, ?_, rfl⟩
  simp only [mainRun, readSourcesJsonFromFile, readSourcesJson, foldl_merge_emptyIndex]
  rfl

/-- C2 counterexample: on an unreadable or structurally malformed descriptor
(`Json::Reader::parse` fails; its return value is ignored at main.cc line
236), the process does not terminate with a non-zero exit code and does
produce an output file: it exits 0 and saves an index. -/
theorem malformed_descriptor_still_succeeds :
    (mainRun (fun _ => none) none).exitCode = 0 ∧
    ((mainRun (fun _ => none) none).savedIndex).isSome = true :=
  ⟨rfl, rfl⟩

/-- C2 amended: if the build descriptor is unreadable or structurally
malformed, the parse failure is ignored: the run proceeds as if the
descriptor listed no files — no extraction task is dispatched — and it still
persists an output file (the bare index, made read-only) and exits 0. -/
theorem malformed_descriptor_ignored (frontend : Frontend) :
    recordsOf none = [] ∧
    (recordsOf none).map (fun r => indexSourceFile frontend r) = [] ∧
    mainRun frontend none = ⟨0, some (Index.emptyIndex.setReadOnly)⟩ :=
  ⟨rfl, rfl, rfl⟩

/-- C3: with three files of which file 2 fails to parse, `indexSourceFile`
returns the valid, schema-correct, empty `newIndex` for the failing file, the
run is not aborted and exits 0 — but the facts of files 1 and 3 never reach
the merged global index: the bare destination leaves the persisted index with
no tables at all, even though file 1's per-file index does carry a fact. -/
theorem parse_failure_isolation_run :
    indexSourceFile
        (fun sfi => if sfi.path = "b.c" then none
          else some [⟨"f", none, "FunctionDecl", sfi.path, 1, 1, []⟩])
        ⟨"b.c", [], [], []⟩ = newIndex ∧
    (mainRun
        (fun sfi => if sfi.path = "b.c" then none
          else some [⟨"f", none, "FunctionDecl", sfi.path, 1, 1, []⟩])
        (some [⟨"a.c", [], [], []⟩, ⟨"b.c", [], [], []⟩, ⟨"c.c", [], [], []⟩])).exitCode
      = 0 ∧
    (mainRun
        (fun sfi => if sfi.path = "b.c" then none
          else some [⟨"f", none, "FunctionDecl", sfi.path, 1, 1, []⟩])
        (some [⟨"a.c", [], [], []⟩, ⟨"b.c", [], [], []⟩, ⟨"c.c", [], [], []⟩])).savedIndex
      = some (⟨[], [], true⟩ : IndexDb.Index) ∧
    ((indexSourceFile
        (fun sfi => if sfi.path = "b.c" then none
          else some [⟨"f", none, "FunctionDecl", sfi.path, 1, 1, []⟩])
        ⟨"a.c", [], [], []⟩).tableRows "ref").length = 1 := by
  refine ⟨rfl, rfl, ?_, ?_⟩
  · simp only [mainRun, readSourcesJsonFromFile, readSourcesJson, foldl_merge_emptyIndex]
    rfl
  · have e : (indexSourceFile
        (fun sfi => if sfi.path = "b.c" then none
          else some [⟨"f", none, "FunctionDecl", sfi.path, 1, 1, []⟩])
        ⟨"a.c", [], [], []⟩).tableRows "ref" =
      (visitForest initTU [⟨"f", none, "FunctionDecl", "a.c", 1, 1, []⟩]).refRows := rfl
    rw [e, visitForest_ref_length]
    simp [initTU, countNonEmptyF, resolvedUsr]

/-- C5: every per-file index created by the program carries the fixed
`newIndex` schema (string tables `path`, `kind`, `usr`; tables `ref`, `loc`),
but the global destination index `main` constructs is bare: before any merge
its schema is `([], [])`, not structurally identical to the per-file
schema. -/
theorem global_index_schema_mismatch :
    (∀ (frontend : Frontend) (sfi : SourceFileInfo),
        (indexSourceFile frontend sfi).schemaOf = newIndex.schemaOf) ∧
    Index.emptyIndex.schemaOf = ([], []) ∧
    newIndex.schemaOf ≠ ([], []) := by
  refine ⟨?_, rfl, by decide⟩
  intro fr sfi
  cases h : fr sfi with
  | none => simp only [indexSourceFile, h]
  | some forest =>
    simp only [indexSourceFile, h]
    rfl

end ClangIndexer

namespace ClangIndexer

open IndexDb

/-- C6 witness: a two-step schedule (task 0 completes, then is collected)
reaches a state whose merge sequence is `List.range 1` and whose destination
is the fold of task 0's output. -/
theorem results_collected_in_submission_order_witness :
    (⟨[0], 1, Index.emptyIndex.merge newIndex, [0]⟩ : SchedState).mergedSeq =
      List.range (⟨[0], 1, Index.emptyIndex.merge newIndex, [0]⟩ : SchedState).collected ∧
    (⟨[0], 1, Index.emptyIndex.merge newIndex, [0]⟩ : SchedState).dest =
      (List.range (⟨[0], 1, Index.emptyIndex.merge newIndex, [0]⟩ : SchedState).collected).foldl
        (fun d _ => d.merge newIndex) Index.emptyIndex :=
  results_collected_in_submission_order (fun _ => newIndex) 1 Index.emptyIndex
    ⟨[0], 1, Index.emptyIndex.merge newIndex, [0]⟩
    (Relation.ReflTransGen.tail
      (Relation.ReflTransGen.single
        (SchedStep.complete (initSched Index.emptyIndex) 0 (by decide) (by decide)))
      (SchedStep.collect ⟨[0], 0, Index.emptyIndex, []⟩ (by decide) (by decide)))

/-- C4: the logical content of a destination built by merging a sequence of
well-formed schema-registered per-file indexes into an initially-empty
schema-registered destination — every row resolved through its string tables
back to a set of string tuples — depends only on the multiset of the sources'
logical contents, not on the order in which they are merged. -/
theorem merge_logical_content_order_independent (srcs1 srcs2 : List Index)
    (h1 : ∀ s ∈ srcs1, IsStdValid s) (h2 : ∀ s ∈ srcs2, IsStdValid s)
    (hms : (↑(srcs1.map Index.factsSet) : Multiset (Finset (String × List Cell))) =
      ↑(srcs2.map Index.factsSet)) :
    (srcs1.foldl Index.merge newIndex).factsSet =
      (srcs2.foldl Index.merge newIndex).factsSet := by
  have e0 : StdOK ⟨⟨[]⟩, ⟨[]⟩, ⟨[]⟩, [], [], false⟩ := by
    constructor <;> simp
  have f : ∀ (srcs : List Index), (∀ s ∈ srcs, IsStdValid s) →
      (srcs.foldl Index.merge newIndex).factsSet =
        (srcs.map Index.factsSet).foldr (fun a b => a ∪ b) ∅ := by
    intro srcs hs
    have k := factsList_foldl_perm srcs hs ⟨⟨[]⟩, ⟨[]⟩, ⟨[]⟩, [], [], false⟩ e0
    rw [newIndex_eq_stdIndex]
    calc (srcs.foldl Index.merge (stdIndex ⟨⟨[]⟩, ⟨[]⟩, ⟨[]⟩, [], [], false⟩)).factsSet
        = ((stdIndex ⟨⟨[]⟩, ⟨[]⟩, ⟨[]⟩, [], [], false⟩).factsList ++
            (srcs.map Index.factsList).flatten).toFinset :=
          List.toFinset_eq_of_perm _ _ k
      _ = (srcs.map Index.factsSet).foldr (fun a b => a ∪ b) ∅ := by
          rw [show (stdIndex ⟨⟨[]⟩, ⟨[]⟩, ⟨[]⟩, [], [], false⟩).factsList = [] from rfl,
            List.nil_append, toFinset_flatten_map]
  rw [f srcs1 h1, f srcs2 h2]
  exact foldr_union_perm (Multiset.coe_eq_coe.mp hms) ∅

/-- C4 witness: merging two concrete per-file indexes in the two orders into
the empty schema-registered destination yields the same resolved fact set. -/
theorem merge_logical_content_order_independent_witness :
    ([stdIndex ⟨⟨["x.c"]⟩, ⟨["k"]⟩, ⟨["f"]⟩, [[0, 0, 1, 2, 0]], [[0, 1, 2, 0]], true⟩,
      stdIndex ⟨⟨["y.c"]⟩, ⟨["k"]⟩, ⟨["g"]⟩, [[0, 0, 3, 4, 0]], [[0, 3, 4, 0]], true⟩].foldl
        Index.merge newIndex).factsSet =
    ([stdIndex ⟨⟨["y.c"]⟩, ⟨["k"]⟩, ⟨["g"]⟩, [[0, 0, 3, 4, 0]], [[0, 3, 4, 0]], true⟩,
      stdIndex ⟨⟨["x.c"]⟩, ⟨["k"]⟩, ⟨["f"]⟩, [[0, 0, 1, 2, 0]], [[0, 1, 2, 0]], true⟩].foldl
        Index.merge newIndex).factsSet :=
  merge_logical_content_order_independent _ _
    (by
      intro s hs
      simp only [List.mem_cons, List.not_mem_nil, or_false] at hs
      rcases hs with rfl | rfl
      · exact ⟨_, rfl, by decide⟩
      · exact ⟨_, rfl, by decide⟩)
    (by
      intro s hs
      simp only [List.mem_cons, List.not_mem_nil, or_false] at hs
      rcases hs with rfl | rfl
      · exact ⟨_, rfl, by decide⟩
      · exact ⟨_, rfl, by decide⟩)
    (Multiset.coe_eq_coe.mpr (List.Perm.swap _ _ _))

end ClangIndexer
